import Mathlib

/-!
Shallow embedding of the URL-shortener core of this repository:
`src/Backend_Test_Submission/src/models/UrlModel.js`,
`src/Backend_Test_Submission/src/utils/helpers.js`, and the route handlers in
`src/Backend_Test_Submission/src/routes/urlRoutes.js`.

Modelling conventions:
- JS `Date` values are modelled as `Int` (milliseconds since epoch); every
  occurrence of `new Date()` in the source becomes an explicit `now : Int`
  parameter.
- The two JS `Map`s (`this.urls`, `this.analytics`) are modelled as
  association lists with `mapGet` / `mapSet` / `mapDelete` / `mapHas`
  realising `Map.get` / `Map.set` / `Map.delete` / `Map.has`.
- Randomness (`nanoid`, `Math.random`) is modelled by explicit input
  streams passed as parameters.
-/

namespace UrlShortener

/-- Lookup in an association list, as JS `Map.get` (JS maps have unique keys;
lookup returns the entry for the key, `undefined` becomes `none`). -/
def mapGet (m : List (String × α)) (k : String) : Option α :=
  match m with
  | [] => none
  | p :: rest => if p.1 = k then some p.2 else mapGet rest k

/-- Update in an association list, as JS `Map.set`: replaces the entry for the
key when present, otherwise appends a new entry. -/
def mapSet (m : List (String × α)) (k : String) (v : α) : List (String × α) :=
  match m with
  | [] => [(k, v)]
  | p :: rest => if p.1 = k then (k, v) :: rest else p :: mapSet rest k v

/-- Removal from an association list, as JS `Map.delete`: drops every entry
for the key (a JS map holds at most one). -/
def mapDelete (m : List (String × α)) (k : String) : List (String × α) :=
  m.filter (fun p => p.1 ≠ k)

/-- Key membership, as JS `Map.has`. -/
def mapHas (m : List (String × α)) (k : String) : Bool :=
  (mapGet m k).isSome

/-- Geographical location record, as produced by `getLocationFromIP`. -/
structure LocationInfo where
  country : String
  region : String
  city : String
  timezone : String
deriving Repr, DecidableEq

/-- Input to `recordClick` (the `clickData` argument built by the redirect
route). `referrer = none` models a missing JS field (soaked up by
`clickData.referrer || 'direct'`); likewise for `location`. -/
structure ClickData where
  ip : String
  userAgent : String
  referrer : Option String
  location : Option LocationInfo
deriving Repr, DecidableEq

/-- Stored click record, as built inside `UrlModel.recordClick`. A `none`
location models the JS fallback string `'unknown'` from
`clickData.location || 'unknown'`. -/
structure ClickRecord where
  timestamp : Int
  ip : String
  userAgent : String
  referrer : String
  location : Option LocationInfo
deriving Repr, DecidableEq

/-- Per-shortcode analytics entry (`this.analytics` map values). -/
structure AnalyticsEntry where
  totalClicks : Nat
  clicks : List ClickRecord
deriving Repr, DecidableEq

/-- Stored URL record (`this.urls` map values), as built in `UrlModel.create`. -/
structure UrlRecord where
  shortcode : String
  originalUrl : String
  createdAt : Int
  expiryDate : Int
  isActive : Bool
deriving Repr, DecidableEq

/-- The in-memory registry state of `UrlModel`: the `urls` map and the
`analytics` map. -/
structure UrlModel where
  urls : List (String × UrlRecord)
  analytics : List (String × AnalyticsEntry)
deriving Repr, DecidableEq

/-- The state of the freshly constructed singleton: two empty maps. -/
def UrlModel.empty : UrlModel := ⟨[], []⟩

/-- Embeds `UrlModel.create(shortcode, originalUrl, expiryDate, createdAt)`:
inserts the URL record and a fresh analytics entry, returns the record. -/
def UrlModel.create (m : UrlModel) (shortcode originalUrl : String)
    (expiryDate : Int) (createdAt : Int) : UrlModel × UrlRecord :=
  let urlData : UrlRecord :=
    { shortcode := shortcode, originalUrl := originalUrl,
      createdAt := createdAt, expiryDate := expiryDate, isActive := true }
  ({ urls := mapSet m.urls shortcode urlData,
     analytics := mapSet m.analytics shortcode { totalClicks := 0, clicks := [] } },
   urlData)

/-- Embeds `UrlModel.findByShortcode(shortcode)`: `null` when absent, `null`
when `new Date() > urlData.expiryDate`, else the record. -/
def UrlModel.findByShortcode (m : UrlModel) (now : Int) (shortcode : String) :
    Option UrlRecord :=
  match mapGet m.urls shortcode with
  | none => none
  | some urlData => if now > urlData.expiryDate then none else some urlData

/-- Embeds `UrlModel.exists(shortcode)`: `this.urls.has(shortcode)`. -/
def UrlModel.exists (m : UrlModel) (shortcode : String) : Bool :=
  mapHas m.urls shortcode

/-- The click object assembled inside `recordClick`: server-assigned timestamp,
`referrer` defaulted to `'direct'`, `location` defaulted (to `'unknown'`,
modelled as `none`). -/
def mkClick (now : Int) (clickData : ClickData) : ClickRecord :=
  { timestamp := now, ip := clickData.ip, userAgent := clickData.userAgent,
    referrer := clickData.referrer.getD "direct",
    location := clickData.location }

/-- Embeds `UrlModel.recordClick(shortcode, clickData)`: returns `false` and
mutates nothing when no analytics entry is present; otherwise pushes one
click, increments `totalClicks` and returns `true`. Expiry is not checked. -/
def UrlModel.recordClick (m : UrlModel) (now : Int) (shortcode : String)
    (clickData : ClickData) : UrlModel × Bool :=
  match mapGet m.analytics shortcode with
  | none => (m, false)
  | some analytics =>
    ({ urls := m.urls,
       analytics := mapSet m.analytics shortcode
         { totalClicks := analytics.totalClicks + 1,
           clicks := analytics.clicks ++ [mkClick now clickData] } },
     true)

/-- The object returned by `UrlModel.getAnalytics` on success. -/
structure AnalyticsView where
  shortcode : String
  originalUrl : String
  createdAt : Int
  expiryDate : Int
  totalClicks : Nat
  clicks : List ClickRecord
  isActive : Bool
deriving Repr, DecidableEq

/-- Embeds `UrlModel.getAnalytics(shortcode)`: `null` only when the URL record
or the analytics entry is missing; otherwise the merged view with `isActive`
recomputed as `urlData.isActive && new Date() <= urlData.expiryDate`. -/
def UrlModel.getAnalytics (m : UrlModel) (now : Int) (shortcode : String) :
    Option AnalyticsView :=
  match mapGet m.urls shortcode, mapGet m.analytics shortcode with
  | some urlData, some analytics =>
    some { shortcode := shortcode, originalUrl := urlData.originalUrl,
           createdAt := urlData.createdAt, expiryDate := urlData.expiryDate,
           totalClicks := analytics.totalClicks, clicks := analytics.clicks,
           isActive := urlData.isActive && decide (now ≤ urlData.expiryDate) }
  | _, _ => none

/-- The loop body of `UrlModel.cleanupExpired`: iterates over the entries of
the `urls` map, deleting from both maps every entry with
`now > urlData.expiryDate` and counting the deletions. -/
def UrlModel.cleanupLoop (now : Int) :
    List (String × UrlRecord) → UrlModel → Nat → UrlModel × Nat
  | [], m, c => (m, c)
  | p :: rest, m, c =>
    if now > p.2.expiryDate then
      UrlModel.cleanupLoop now rest
        ⟨mapDelete m.urls p.1, mapDelete m.analytics p.1⟩ (c + 1)
    else
      UrlModel.cleanupLoop now rest m c

/-- Embeds `UrlModel.cleanupExpired()`: scans `this.urls`, removes expired
entries from both maps, returns the new state and the removed count. -/
def UrlModel.cleanupExpired (m : UrlModel) (now : Int) : UrlModel × Nat :=
  UrlModel.cleanupLoop now m.urls m 0

/-- The alphabet of `UrlHelpers.generateShortcode`. -/
def alphabet : List Char :=
  "0123456789ABCDEFGHIJKLMNOPQRSTUVWXYZabcdefghijklmnopqrstuvwxyz".toList

/-- Embeds `UrlHelpers.generateShortcode(6)`. The `nanoid(length)` call is an
external library producing `length` random URL-safe characters; it is
modelled by the `raw` parameter. The regex replace swaps every
non-alphanumeric character for `alphabet[Math.floor(Math.random()*62)]`;
the random draws are modelled by `rand` (one draw per position, reduced
into range with `% alphabet.length`). -/
def generateShortcode (raw : List Char) (rand : Nat → Nat) : String :=
  String.mk (raw.enum.map (fun p =>
    if p.2.isAlphanum then p.2
    else alphabet.getD (rand p.1 % alphabet.length) '0'))

/-- Embeds `UrlHelpers.isValidShortcode`: the regex `^[a-zA-Z0-9]{3,20}$`. -/
def isValidShortcode (shortcode : String) : Bool :=
  decide (3 ≤ shortcode.length) && decide (shortcode.length ≤ 20) &&
    shortcode.toList.all (fun c => c.isAlphanum)

/-- Embeds `UrlHelpers.calculateExpiryDate(validityMinutes)`: the JS guard
`!validityMinutes || validityMinutes < 1` resets to the default 30 (for an
integer argument the two disjuncts collapse to `validityMinutes < 1`, since
the only falsy integer is 0); the result is `now + validityMinutes*60*1000`
milliseconds. -/
def calculateExpiryDate (now : Int) (validityMinutes : Int) : Int :=
  let v := if validityMinutes < 1 then 30 else validityMinutes
  now + v * 60 * 1000

/-- Outcome of the validity-period check in `POST /shorturls`. -/
inductive ValidityCheck where
  | rejected400
  | accepted (validityMinutes : Int)
deriving Repr, DecidableEq

/-- Embeds `let validityMinutes = validity || 30` from the create route:
an absent field defaults to 30, and so does a supplied 0, because 0 is falsy
in JS. -/
def resolveValidity (validity : Option Int) : Int :=
  match validity with
  | none => 30
  | some v => if v = 0 then 30 else v

/-- Embeds the validity validation of `POST /shorturls` (routes lines 39-46):
default resolution followed by the range test
`validityMinutes < 1 || validityMinutes > 525600` producing a 400. -/
def checkValidity (validity : Option Int) : ValidityCheck :=
  let validityMinutes := resolveValidity validity
  if validityMinutes < 1 ∨ validityMinutes > 525600 then .rejected400
  else .accepted validityMinutes

/-- Embeds lines 82-83 of the create route: compute the expiry date from the
validity minutes at time `now`, then insert via `UrlModel.create` (whose
`createdAt` defaults to `new Date()`, the same instant modelled by `now`). -/
def createShortUrl (m : UrlModel) (now : Int) (shortcode url : String)
    (validityMinutes : Int) : UrlModel × UrlRecord :=
  let expiryDate := calculateExpiryDate now validityMinutes
  UrlModel.create m shortcode url expiryDate now

/-- Embeds the auto-generation do/while loop of `POST /shorturls` (routes
lines 67-80): generate a candidate, bump `attempts`, answer 500 once
`attempts > 10`, and loop while the candidate already is taken. `gen i` is
the candidate produced by the i-th `generateShortcode()` call. -/
def autoGenLoop (m : UrlModel) (gen : Nat → String) (attempts : Nat) :
    Except Unit String :=
  let finalShortcode := gen attempts
  if attempts + 1 > 10 then .error ()
  else if m.exists finalShortcode then autoGenLoop m gen (attempts + 1)
  else .ok finalShortcode
termination_by 10 - attempts
decreasing_by omega

/-- Outcome of the create route when no custom shortcode is supplied. -/
inductive CreateAutoResult where
  | serverError
  | created (shortcode : String) (expiry : Int)
deriving Repr, DecidableEq

/-- Embeds the no-custom-shortcode path of `POST /shorturls`: run the
generation loop; on exhaustion answer 500 without touching the registry,
otherwise create the short URL. -/
def createAutoHandler (m : UrlModel) (gen : Nat → String) (url : String)
    (now validityMinutes : Int) : UrlModel × CreateAutoResult :=
  match autoGenLoop m gen 0 with
  | .error _ => (m, .serverError)
  | .ok finalShortcode =>
    let r := createShortUrl m now finalShortcode url validityMinutes
    (r.1, .created finalShortcode r.2.expiryDate)

/-- Status outcome of `GET /shorturls/:shortcode`. -/
inductive StatsResponse where
  | badRequest
  | notFound
  | ok (body : AnalyticsView)
deriving Repr, DecidableEq

/-- Embeds the statistics route `GET /shorturls/:shortcode` (routes lines
114-166): 400 on bad shortcode format, 404 when `getAnalytics` answers
`null`, else 200 with the analytics view. -/
def handleGetStats (m : UrlModel) (now : Int) (shortcode : String) :
    StatsResponse :=
  if ¬ isValidShortcode shortcode then .badRequest
  else
    match m.getAnalytics now shortcode with
    | none => .notFound
    | some analytics => .ok analytics

/-- One registry operation: a `create`, a `recordClick` or a
`cleanupExpired`, with arbitrary arguments and time. -/
inductive Step : UrlModel → UrlModel → Prop where
  | create {m : UrlModel} (sc url : String) (expiryDate createdAt : Int) :
      Step m (UrlModel.create m sc url expiryDate createdAt).1
  | click {m : UrlModel} (now : Int) (sc : String) (cd : ClickData) :
      Step m (UrlModel.recordClick m now sc cd).1
  | cleanup {m : UrlModel} (now : Int) :
      Step m (UrlModel.cleanupExpired m now).1

/-- Registry states reachable from the empty singleton state by any sequence
of operations. -/
inductive Reachable : UrlModel → Prop where
  | empty : Reachable UrlModel.empty
  | step {m m' : UrlModel} : Reachable m → Step m m' → Reachable m'

/-- Lookup after setting the same key yields the new value. -/
theorem mapGet_set_self (m : List (String × α)) (k : String) (v : α) :
    mapGet (mapSet m k v) k = some v := by
  induction m with
  | nil => simp [mapSet, mapGet]
  | cons p rest ih =>
    by_cases h : p.1 = k <;> simp [mapSet, mapGet, h, ih]

/-- Lookup after setting a different key is unchanged. -/
theorem mapGet_set_ne (m : List (String × α)) {k k' : String} (v : α)
    (h : k' ≠ k) : mapGet (mapSet m k v) k' = mapGet m k' := by
  have hne : ¬ k = k' := fun hk => h hk.symm
  induction m with
  | nil => simp [mapSet, mapGet, hne]
  | cons p rest ih =>
    by_cases hp : p.1 = k
    · subst hp
      simp [mapSet, mapGet, hne]
    · simp only [mapSet, if_neg hp, mapGet, ih]

/-- Lookup after deleting the same key yields nothing. -/
theorem mapGet_del_self (m : List (String × α)) (k : String) :
    mapGet (mapDelete m k) k = none := by
  induction m with
  | nil => simp [mapDelete, mapGet]
  | cons p rest ih =>
    by_cases hp : p.1 = k
    · simpa [mapDelete, List.filter_cons, hp] using ih
    · simpa [mapDelete, List.filter_cons, hp, mapGet] using ih

/-- Lookup after deleting a different key is unchanged. -/
theorem mapGet_del_ne (m : List (String × α)) {k k' : String}
    (h : k' ≠ k) : mapGet (mapDelete m k) k' = mapGet m k' := by
  induction m with
  | nil => simp [mapDelete]
  | cons p rest ih =>
    by_cases hp : p.1 = k
    · have h1 : mapDelete (p :: rest) k = mapDelete rest k := by
        simp [mapDelete, List.filter_cons, hp]
      have h2 : ¬ p.1 = k' := by
        rw [hp]; exact fun hk => h hk.symm
      rw [h1, ih]
      simp [mapGet, h2]
    · have h1 : mapDelete (p :: rest) k = p :: mapDelete rest k := by
        simp [mapDelete, List.filter_cons, hp]
      rw [h1]
      simp [mapGet, ih]

/-- A successful lookup is a membership. -/
theorem mem_of_mapGet {m : List (String × α)} {k : String} {v : α}
    (h : mapGet m k = some v) : (k, v) ∈ m := by
  induction m with
  | nil => simp [mapGet] at h
  | cons p rest ih =>
    obtain ⟨k0, v0⟩ := p
    by_cases hp : k0 = k
    · subst hp
      simp [mapGet] at h
      subst h
      exact List.mem_cons_self _ _
    · simp [mapGet, hp] at h
      exact List.mem_cons_of_mem _ (ih h)

/-- Every entry of `mapSet m k v` is the new pair or an old entry. -/
theorem mem_mapSet {m : List (String × α)} {k : String} {v : α} {p}
    (h : p ∈ mapSet m k v) : p = (k, v) ∨ p ∈ m := by
  induction m with
  | nil => simpa [mapSet] using h
  | cons q rest ih =>
    by_cases hq : q.1 = k
    · simp only [mapSet, if_pos hq] at h
      rcases List.mem_cons.1 h with h' | h'
      · exact Or.inl h'
      · exact Or.inr (List.mem_cons_of_mem _ h')
    · simp only [mapSet, if_neg hq] at h
      rcases List.mem_cons.1 h with h' | h'
      · exact Or.inr (h' ▸ List.mem_cons_self _ _)
      · rcases ih h' with h'' | h''
        · exact Or.inl h''
        · exact Or.inr (List.mem_cons_of_mem _ h'')

/-- Deleting only removes entries. -/
theorem mem_of_mem_mapDelete {m : List (String × α)} {k : String} {p}
    (h : p ∈ mapDelete m k) : p ∈ m :=
  List.mem_of_mem_filter h

/-- The shortcodes that a cleanup pass at time `now` finds expired in the
entry list it scans. -/
def expiredKeys (now : Int) (l : List (String × UrlRecord)) : List String :=
  (l.filter (fun p => decide (now > p.2.expiryDate))).map Prod.fst

/-- The cleanup loop's count accumulates exactly the number of expired
entries of the scanned list. -/
theorem cleanupLoop_count (now : Int) (l : List (String × UrlRecord))
    (m : UrlModel) (c : Nat) :
    (UrlModel.cleanupLoop now l m c).2 =
      c + (l.filter (fun p => decide (now > p.2.expiryDate))).length := by
  induction l generalizing m c with
  | nil => simp [UrlModel.cleanupLoop]
  | cons p rest ih =>
    by_cases hp : now > p.2.expiryDate
    · simp only [UrlModel.cleanupLoop, if_pos hp, ih, List.filter,
        decide_eq_true hp, List.length_cons]
      omega
    · simp [UrlModel.cleanupLoop, if_neg hp, ih, List.filter,
        decide_eq_false hp]

/-- Unfolds `expiredKeys` over an expired head entry. -/
theorem expiredKeys_cons_pos {now : Int} {p : String × UrlRecord}
    (rest : List (String × UrlRecord)) (hp : now > p.2.expiryDate) :
    expiredKeys now (p :: rest) = p.1 :: expiredKeys now rest := by
  simp [expiredKeys, List.filter_cons, decide_eq_true hp]

/-- Unfolds `expiredKeys` over a non-expired head entry. -/
theorem expiredKeys_cons_neg {now : Int} {p : String × UrlRecord}
    (rest : List (String × UrlRecord)) (hp : ¬ now > p.2.expiryDate) :
    expiredKeys now (p :: rest) = expiredKeys now rest := by
  simp [expiredKeys, List.filter_cons, decide_eq_false hp]

/-- Lookup in the `urls` map after the cleanup loop: gone for scanned-expired
keys, untouched otherwise. -/
theorem cleanupLoop_urls_get (now : Int) (l : List (String × UrlRecord))
    (m : UrlModel) (c : Nat) (k : String) :
    mapGet (UrlModel.cleanupLoop now l m c).1.urls k =
      if k ∈ expiredKeys now l then none else mapGet m.urls k := by
  induction l generalizing m c with
  | nil => simp [UrlModel.cleanupLoop, expiredKeys]
  | cons p rest ih =>
    by_cases hp : now > p.2.expiryDate
    · simp only [UrlModel.cleanupLoop, if_pos hp, ih,
        expiredKeys_cons_pos rest hp, List.mem_cons]
      by_cases hk : k = p.1
      · subst hk
        simp [mapGet_del_self]
      · by_cases hm : k ∈ expiredKeys now rest
        · simp [hk, hm]
        · simp [hk, hm, mapGet_del_ne _ hk]
    · simp only [UrlModel.cleanupLoop, if_neg hp, ih,
        expiredKeys_cons_neg rest hp]

/-- Lookup in the `analytics` map after the cleanup loop: gone for
scanned-expired keys, untouched otherwise. -/
theorem cleanupLoop_analytics_get (now : Int) (l : List (String × UrlRecord))
    (m : UrlModel) (c : Nat) (k : String) :
    mapGet (UrlModel.cleanupLoop now l m c).1.analytics k =
      if k ∈ expiredKeys now l then none else mapGet m.analytics k := by
  induction l generalizing m c with
  | nil => simp [UrlModel.cleanupLoop, expiredKeys]
  | cons p rest ih =>
    by_cases hp : now > p.2.expiryDate
    · simp only [UrlModel.cleanupLoop, if_pos hp, ih,
        expiredKeys_cons_pos rest hp, List.mem_cons]
      by_cases hk : k = p.1
      · subst hk
        simp [mapGet_del_self]
      · by_cases hm : k ∈ expiredKeys now rest
        · simp [hk, hm]
        · simp [hk, hm, mapGet_del_ne _ hk]
    · simp only [UrlModel.cleanupLoop, if_neg hp, ih,
        expiredKeys_cons_neg rest hp]

/-- Every entry surviving the cleanup loop was already present and its key is
not among the scanned-expired ones. -/
theorem cleanupLoop_urls_mem (now : Int) (l : List (String × UrlRecord))
    (m : UrlModel) (c : Nat) {p : String × UrlRecord}
    (h : p ∈ (UrlModel.cleanupLoop now l m c).1.urls) :
    p ∈ m.urls ∧ p.1 ∉ expiredKeys now l := by
  induction l generalizing m c with
  | nil => simpa [UrlModel.cleanupLoop, expiredKeys] using h
  | cons q rest ih =>
    by_cases hq : now > q.2.expiryDate
    · rw [UrlModel.cleanupLoop, if_pos hq] at h
      obtain ⟨hmem, hkeys⟩ := ih _ _ h
      have hmem' := mem_of_mem_mapDelete hmem
      refine ⟨hmem', ?_⟩
      have hne : p.1 ≠ q.1 := by
        intro hk
        have := List.of_mem_filter hmem
        simp [hk] at this
      simp only [expiredKeys, List.filter, decide_eq_true hq, List.map_cons,
        List.mem_cons]
      rintro (h' | h')
      · exact hne h'
      · exact hkeys (by simpa [expiredKeys] using h')
    · rw [UrlModel.cleanupLoop, if_neg hq] at h
      obtain ⟨hmem, hkeys⟩ := ih _ _ h
      refine ⟨hmem, ?_⟩
      simpa [expiredKeys, List.filter, decide_eq_false hq] using hkeys

/-- The analytics entries surviving the cleanup loop were already present. -/
theorem cleanupLoop_analytics_mem (now : Int) (l : List (String × UrlRecord))
    (m : UrlModel) (c : Nat) {p : String × AnalyticsEntry}
    (h : p ∈ (UrlModel.cleanupLoop now l m c).1.analytics) :
    p ∈ m.analytics := by
  induction l generalizing m c with
  | nil => simpa [UrlModel.cleanupLoop] using h
  | cons q rest ih =>
    by_cases hq : now > q.2.expiryDate
    · rw [UrlModel.cleanupLoop, if_pos hq] at h
      exact mem_of_mem_mapDelete (ih _ _ h)
    · rw [UrlModel.cleanupLoop, if_neg hq] at h
      exact ih _ _ h

/-- A cleanup loop over a list with no expired entry changes nothing. -/
theorem cleanupLoop_no_expired (now : Int) (l : List (String × UrlRecord))
    (m : UrlModel) (c : Nat) (h : ∀ p ∈ l, ¬ now > p.2.expiryDate) :
    UrlModel.cleanupLoop now l m c = (m, c) := by
  induction l with
  | nil => simp [UrlModel.cleanupLoop]
  | cons p rest ih =>
    rw [UrlModel.cleanupLoop, if_neg (h p (List.mem_cons_self _ _))]
    exact ih (fun q hq => h q (List.mem_cons_of_mem _ hq))

/-- On a list whose keys are unique (the JS `Map` representation invariant),
membership determines lookup. -/
theorem mapGet_eq_of_mem {m : List (String × α)}
    (hnd : (m.map Prod.fst).Nodup) {k : String} {v : α}
    (h : (k, v) ∈ m) : mapGet m k = some v := by
  induction m with
  | nil => cases h
  | cons p rest ih =>
    simp only [List.map_cons, List.nodup_cons] at hnd
    rcases List.mem_cons.1 h with h' | h'
    · subst h'
      simp [mapGet]
    · have hne : ¬ p.1 = k := by
        intro he
        exact hnd.1 (by rw [he]; exact List.mem_map.2 ⟨(k, v), h', rfl⟩)
      simp only [mapGet, if_neg hne]
      exact ih hnd.2 h'

/-- C2: the resolve operation `findByShortcode` returns the stored record if
and only if a record for the shortcode is present in the `urls` map and the
current time is not past its `expiryDate`; in every other case it returns
`none`, so a never-created shortcode and an expired one are
indistinguishable to the caller. -/
theorem C2_findByShortcode_iff (m : UrlModel) (now : Int)
    (shortcode : String) (u : UrlRecord) :
    UrlModel.findByShortcode m now shortcode = some u ↔
      (mapGet m.urls shortcode = some u ∧ now ≤ u.expiryDate) := by
  unfold UrlModel.findByShortcode
  cases hm : mapGet m.urls shortcode with
  | none => simp
  | some w =>
    by_cases hw : now > w.expiryDate
    · simp only [if_pos hw]
      constructor
      · intro h; cases h
      · rintro ⟨h1, h2⟩
        injection h1 with h1
        subst h1
        omega
    · simp only [if_neg hw]
      constructor
      · intro h
        refine ⟨h, ?_⟩
        injection h with h
        subst h
        omega
      · exact fun h => h.1

/-- C3: for a valid validity period, `createShortUrl` (compute expiry, then
`UrlModel.create`) followed immediately by `findByShortcode` returns exactly
the created record, whose `originalUrl` is the URL passed in and whose
`expiryDate` equals `createdAt` plus `validityMinutes` minutes. -/
theorem C3_create_then_find (m : UrlModel) (now : Int)
    (shortcode url : String) (validityMinutes : Int)
    (hv : 1 ≤ validityMinutes) :
    UrlModel.findByShortcode
        (createShortUrl m now shortcode url validityMinutes).1 now shortcode =
      some (createShortUrl m now shortcode url validityMinutes).2 ∧
    (createShortUrl m now shortcode url validityMinutes).2.originalUrl = url ∧
    (createShortUrl m now shortcode url validityMinutes).2.expiryDate =
      (createShortUrl m now shortcode url validityMinutes).2.createdAt +
        validityMinutes * 60 * 1000 := by
  have hv' : ¬ validityMinutes < 1 := by omega
  refine ⟨?_, rfl, ?_⟩
  · simp only [createShortUrl, calculateExpiryDate, if_neg hv',
      UrlModel.create, UrlModel.findByShortcode, mapGet_set_self]
    rw [if_neg (by omega)]
  · simp [createShortUrl, calculateExpiryDate, if_neg hv', UrlModel.create]

/-- C3 witness: the theorem applied at a concrete creation. -/
theorem C3_create_then_find_witness :
    (1 : Int) ≤ 1 ∧
    (UrlModel.findByShortcode
        (createShortUrl UrlModel.empty 0 "abc123" "https://example.com" 1).1
        0 "abc123" =
      some (createShortUrl UrlModel.empty 0 "abc123" "https://example.com" 1).2 ∧
    (createShortUrl UrlModel.empty 0 "abc123" "https://example.com" 1).2.originalUrl =
      "https://example.com" ∧
    (createShortUrl UrlModel.empty 0 "abc123" "https://example.com" 1).2.expiryDate =
      (createShortUrl UrlModel.empty 0 "abc123" "https://example.com" 1).2.createdAt +
        1 * 60 * 1000) :=
  ⟨le_refl 1,
   C3_create_then_find UrlModel.empty 0 "abc123" "https://example.com" 1 (le_refl 1)⟩

/-- C4: a cleanup pass at time `now` returns the number of entries with
`expiryDate < now`, removes exactly those entries together with their
analytics, leaves every other entry (and its analytics) untouched, and a
second pass at the same time removes nothing and returns 0. The `Nodup`
hypothesis is the JS `Map` representation invariant (unique keys). -/
theorem C4_cleanupExpired_exact (m : UrlModel) (now : Int)
    (hnd : (m.urls.map Prod.fst).Nodup) :
    ((UrlModel.cleanupExpired m now).2 =
      (m.urls.filter (fun p => decide (now > p.2.expiryDate))).length) ∧
    (∀ sc u, mapGet m.urls sc = some u → u.expiryDate < now →
      mapGet (UrlModel.cleanupExpired m now).1.urls sc = none ∧
      mapGet (UrlModel.cleanupExpired m now).1.analytics sc = none) ∧
    (∀ sc u, mapGet m.urls sc = some u → ¬ u.expiryDate < now →
      mapGet (UrlModel.cleanupExpired m now).1.urls sc = some u ∧
      mapGet (UrlModel.cleanupExpired m now).1.analytics sc =
        mapGet m.analytics sc) ∧
    (UrlModel.cleanupExpired (UrlModel.cleanupExpired m now).1 now =
      ((UrlModel.cleanupExpired m now).1, 0)) := by
  refine ⟨?_, ?_, ?_, ?_⟩
  · simpa using cleanupLoop_count now m.urls m 0
  · intro sc u hu hexp
    have hin : sc ∈ expiredKeys now m.urls :=
      List.mem_map.2 ⟨(sc, u),
        List.mem_filter.2 ⟨mem_of_mapGet hu, decide_eq_true hexp⟩, rfl⟩
    constructor
    · rw [UrlModel.cleanupExpired, cleanupLoop_urls_get, if_pos hin]
    · rw [UrlModel.cleanupExpired, cleanupLoop_analytics_get, if_pos hin]
  · intro sc u hu hexp
    have hnot : sc ∉ expiredKeys now m.urls := by
      intro hin
      obtain ⟨q, hq, hq1⟩ := List.mem_map.1 hin
      obtain ⟨hq2, hq3⟩ := List.mem_filter.1 hq
      have hget : mapGet m.urls q.1 = some q.2 := mapGet_eq_of_mem hnd hq2
      rw [hq1, hu] at hget
      injection hget with hget
      exact hexp (by rw [hget]; simpa using hq3)
    constructor
    · rw [UrlModel.cleanupExpired, cleanupLoop_urls_get, if_neg hnot, hu]
    · rw [UrlModel.cleanupExpired, cleanupLoop_analytics_get, if_neg hnot]
  · have hclean : ∀ p ∈ (UrlModel.cleanupExpired m now).1.urls,
        ¬ now > p.2.expiryDate := by
      intro p hp hexp
      obtain ⟨hmem, hkeys⟩ := cleanupLoop_urls_mem now m.urls m 0 hp
      exact hkeys (List.mem_map.2
        ⟨p, List.mem_filter.2 ⟨hmem, decide_eq_true hexp⟩, rfl⟩)
    exact cleanupLoop_no_expired now _ _ 0 hclean

/-- C5: `recordClick` returns `false` and leaves the state completely
unchanged when no analytics entry is present; when one is present it appends
exactly one click whose timestamp is the server time `now`, increments
`totalClicks` by one and returns `true`, for every `now` — expiry is never
consulted. -/
theorem C5_recordClick (m : UrlModel) (now : Int) (shortcode : String)
    (cd : ClickData) :
    (mapGet m.analytics shortcode = none →
      UrlModel.recordClick m now shortcode cd = (m, false)) ∧
    (∀ a, mapGet m.analytics shortcode = some a →
      UrlModel.recordClick m now shortcode cd =
        ({ urls := m.urls,
           analytics := mapSet m.analytics shortcode
             { totalClicks := a.totalClicks + 1,
               clicks := a.clicks ++ [mkClick now cd] } }, true) ∧
      (mkClick now cd).timestamp = now) := by
  constructor
  · intro h
    simp [UrlModel.recordClick, h]
  · intro a h
    refine ⟨?_, rfl⟩
    simp [UrlModel.recordClick, h]

/-- C10: calling `create` for a shortcode that is already present silently
overwrites the stored record with the freshly built one and resets the
shortcode's analytics to an empty entry with `totalClicks` 0, discarding all
previously recorded clicks. -/
theorem C10_create_overwrites (m : UrlModel)
    (shortcode originalUrl : String) (expiryDate createdAt : Int)
    (old : UrlRecord) (oldA : AnalyticsEntry)
    (hu : mapGet m.urls shortcode = some old)
    (ha : mapGet m.analytics shortcode = some oldA) :
    mapGet (UrlModel.create m shortcode originalUrl
        expiryDate createdAt).1.urls shortcode =
      some { shortcode := shortcode, originalUrl := originalUrl,
             createdAt := createdAt, expiryDate := expiryDate,
             isActive := true } ∧
    mapGet (UrlModel.create m shortcode originalUrl
        expiryDate createdAt).1.analytics shortcode =
      some { totalClicks := 0, clicks := [] } := by
  constructor <;> simp [UrlModel.create, mapGet_set_self]

/-- C5 witness: the theorem applied at a concrete state holding an expired
record (created at time 0 with validity 1 minute, clicked at 61000 ms): the
click is recorded anyway, while an unknown shortcode changes nothing. -/
theorem C5_recordClick_witness :
    UrlModel.recordClick
        (createShortUrl UrlModel.empty 0 "abc123" "https://example.com" 1).1
        61000 "zzz999" ⟨"1.2.3.4", "TestAgent", none, none⟩ =
      ((createShortUrl UrlModel.empty 0 "abc123" "https://example.com" 1).1,
       false) ∧
    (UrlModel.recordClick
        (createShortUrl UrlModel.empty 0 "abc123" "https://example.com" 1).1
        61000 "abc123" ⟨"1.2.3.4", "TestAgent", none, none⟩ =
      ({ urls := (createShortUrl UrlModel.empty 0 "abc123"
            "https://example.com" 1).1.urls,
         analytics := mapSet (createShortUrl UrlModel.empty 0 "abc123"
            "https://example.com" 1).1.analytics "abc123"
           { totalClicks := 1,
             clicks := [mkClick 61000 ⟨"1.2.3.4", "TestAgent", none, none⟩] } },
       true) ∧
     (mkClick 61000 (⟨"1.2.3.4", "TestAgent", none, none⟩ : ClickData)).timestamp
       = 61000) :=
  ⟨(C5_recordClick
      (createShortUrl UrlModel.empty 0 "abc123" "https://example.com" 1).1
      61000 "zzz999" ⟨"1.2.3.4", "TestAgent", none, none⟩).1 (by decide),
   (C5_recordClick
      (createShortUrl UrlModel.empty 0 "abc123" "https://example.com" 1).1
      61000 "abc123" ⟨"1.2.3.4", "TestAgent", none, none⟩).2
     ⟨0, []⟩ (by decide)⟩

/-- Concrete two-entry registry used to exercise the cleanup theorem: one
entry expired at time 100, one not. -/
def cleanupSample : UrlModel :=
  { urls := [("old123", ⟨"old123", "https://a.com", 0, 50, true⟩),
             ("new456", ⟨"new456", "https://b.com", 0, 200, true⟩)],
    analytics := [("old123", ⟨0, []⟩), ("new456", ⟨0, []⟩)] }

/-- C4 witness: the theorem applied to `cleanupSample` at time 100: count 1,
the expired entry and its analytics gone, the live entry untouched, second
pass a no-op. -/
theorem C4_cleanupExpired_exact_witness :
    (UrlModel.cleanupExpired cleanupSample 100).2 = 1 ∧
    mapGet (UrlModel.cleanupExpired cleanupSample 100).1.urls "old123" =
      none ∧
    mapGet (UrlModel.cleanupExpired cleanupSample 100).1.analytics "old123" =
      none ∧
    mapGet (UrlModel.cleanupExpired cleanupSample 100).1.urls "new456" =
      some ⟨"new456", "https://b.com", 0, 200, true⟩ ∧
    UrlModel.cleanupExpired (UrlModel.cleanupExpired cleanupSample 100).1 100 =
      ((UrlModel.cleanupExpired cleanupSample 100).1, 0) := by
  obtain ⟨h1, h2, h3, h4⟩ :=
    C4_cleanupExpired_exact cleanupSample 100 (by decide)
  refine ⟨by rw [h1]; decide, ?_, ?_, ?_, h4⟩
  · exact (h2 "old123" ⟨"old123", "https://a.com", 0, 50, true⟩
      (by decide) (by decide)).1
  · exact (h2 "old123" ⟨"old123", "https://a.com", 0, 50, true⟩
      (by decide) (by decide)).2
  · exact (h3 "new456" ⟨"new456", "https://b.com", 0, 200, true⟩
      (by decide) (by decide)).1

/-- C10 witness: the theorem applied to a registry where "abc123" already
holds a record and one recorded click; re-creating overwrites the record and
resets the analytics. -/
theorem C10_create_overwrites_witness :
    mapGet (UrlModel.create
        (UrlModel.recordClick
          (createShortUrl UrlModel.empty 0 "abc123" "https://example.com" 1).1
          5 "abc123" ⟨"1.2.3.4", "TestAgent", none, none⟩).1
        "abc123" "https://other.com" 999999 70000).1.urls "abc123" =
      some { shortcode := "abc123", originalUrl := "https://other.com",
             createdAt := 70000, expiryDate := 999999, isActive := true } ∧
    mapGet (UrlModel.create
        (UrlModel.recordClick
          (createShortUrl UrlModel.empty 0 "abc123" "https://example.com" 1).1
          5 "abc123" ⟨"1.2.3.4", "TestAgent", none, none⟩).1
        "abc123" "https://other.com" 999999 70000).1.analytics "abc123" =
      some { totalClicks := 0, clicks := [] } :=
  C10_create_overwrites _ "abc123" "https://other.com" 999999 70000
    ⟨"abc123", "https://example.com", 0, 60000, true⟩
    ⟨1, [mkClick 5 ⟨"1.2.3.4", "TestAgent", none, none⟩]⟩
    (by decide) (by decide)

/-- A state holding the record created by the C1 scenario (`validity: 1`,
shortcode "abc123", created at time 0, so `expiryDate` = 60000 ms). -/
def expiredState : UrlModel :=
  (createShortUrl UrlModel.empty 0 "abc123" "https://example.com" 1).1

/-- C1 counterexample: in the claim's own scenario (create with validity 1
at time 0, read at 61000 ms, past expiry, before any cleanup) the record is
still present and expired, yet the statistics route answers 200 with the
analytics view (`isActive = false`), not 404. `getAnalytics` never consults
expiry for the not-found decision. -/
theorem C1_stats404_counterexample :
    mapGet expiredState.urls "abc123" =
      some ⟨"abc123", "https://example.com", 0, 60000, true⟩ ∧
    (60000 : Int) < 61000 ∧
    handleGetStats expiredState 61000 "abc123" =
      StatsResponse.ok ⟨"abc123", "https://example.com", 0, 60000, 0, [], false⟩ ∧
    handleGetStats expiredState 61000 "abc123" ≠ StatsResponse.notFound := by
  refine ⟨by decide, by decide, by decide, by decide⟩

/-- C1 amended: a statistics request for a well-formed shortcode whose
record is present but expired answers 200 with the analytics view and
`isActive` recomputed to `false`; it answers 404 exactly when the record (or
its analytics) is absent — never created, or already removed by cleanup. -/
theorem C1_stats_expired_amended (m : UrlModel) (now : Int)
    (shortcode : String) (u : UrlRecord) (a : AnalyticsEntry)
    (hvalid : isValidShortcode shortcode = true)
    (hu : mapGet m.urls shortcode = some u)
    (ha : mapGet m.analytics shortcode = some a)
    (hexp : u.expiryDate < now) :
    handleGetStats m now shortcode =
      StatsResponse.ok ⟨shortcode, u.originalUrl, u.createdAt, u.expiryDate,
        a.totalClicks, a.clicks, false⟩ ∧
    (∀ sc', isValidShortcode sc' = true → mapGet m.urls sc' = none →
      handleGetStats m now sc' = StatsResponse.notFound) := by
  constructor
  · have hle : ¬ now ≤ u.expiryDate := by omega
    simp [handleGetStats, hvalid, UrlModel.getAnalytics, hu, ha, hle]
  · intro sc' hv' hn
    simp [handleGetStats, hv', UrlModel.getAnalytics, hn]

/-- C1 amended witness: the amended theorem applied to the scenario state at
61000 ms. -/
theorem C1_stats_expired_amended_witness :
    handleGetStats expiredState 61000 "abc123" =
      StatsResponse.ok ⟨"abc123", "https://example.com", 0, 60000, 0, [],
        false⟩ ∧
    handleGetStats expiredState 61000 "zzz999" = StatsResponse.notFound := by
  obtain ⟨h1, h2⟩ := C1_stats_expired_amended expiredState 61000 "abc123"
    ⟨"abc123", "https://example.com", 0, 60000, true⟩ ⟨0, []⟩
    (by decide) (by decide) (by decide) (by decide)
  exact ⟨h1, h2 "zzz999" (by decide) (by decide)⟩

/-- C8 counterexample: a supplied validity of 0 lies outside 1..525600, yet
the request is not rejected: the JS default expression `validity || 30`
treats the falsy 0 as an omitted field, so the request is accepted with a
30-minute validity. -/
theorem C8_validity_counterexample :
    (0 : Int) < 1 ∧
    checkValidity (some 0) = ValidityCheck.accepted 30 ∧
    checkValidity (some 0) ≠ ValidityCheck.rejected400 := by
  refine ⟨by decide, by decide, by decide⟩

/-- C8 amended: an omitted validity defaults to 30 minutes; a supplied value
`n` outside 1..525600 is rejected with 400 for every `n` except 0, which is
treated like an omission and accepted with the 30-minute default; every `n`
inside the range is accepted as given. -/
theorem C8_validity_amended (n : Int) :
    (checkValidity none = ValidityCheck.accepted 30) ∧
    (checkValidity (some 0) = ValidityCheck.accepted 30) ∧
    (n ≠ 0 → (n < 1 ∨ n > 525600) →
      checkValidity (some n) = ValidityCheck.rejected400) ∧
    (1 ≤ n → n ≤ 525600 → checkValidity (some n) = ValidityCheck.accepted n) := by
  refine ⟨by decide, by decide, ?_, ?_⟩
  · intro hn hout
    simp only [checkValidity, resolveValidity, if_neg hn]
    rw [if_pos hout]
  · intro h1 h2
    have hn : ¬ n = 0 := by omega
    simp only [checkValidity, resolveValidity, if_neg hn]
    rw [if_neg (by omega)]

/-- C8 amended witness: the amended theorem applied at concrete validity
values on both sides of the range. -/
theorem C8_validity_amended_witness :
    checkValidity (some (-5)) = ValidityCheck.rejected400 ∧
    checkValidity (some 525601) = ValidityCheck.rejected400 ∧
    checkValidity (some 100) = ValidityCheck.accepted 100 ∧
    checkValidity none = ValidityCheck.accepted 30 :=
  ⟨(C8_validity_amended (-5)).2.2.1 (by decide) (by decide),
   (C8_validity_amended 525601).2.2.1 (by decide) (by decide),
   (C8_validity_amended 100).2.2.2 (by decide) (by decide),
   (C8_validity_amended 0).1⟩

/-- Unfolding equation of the generation loop. -/
theorem autoGenLoop_eq (m : UrlModel) (gen : Nat → String) (attempts : Nat) :
    autoGenLoop m gen attempts =
      if attempts + 1 > 10 then Except.error ()
      else if UrlModel.exists m (gen attempts) then
        autoGenLoop m gen (attempts + 1)
      else Except.ok (gen attempts) := by
  rw [autoGenLoop]

/-- The generation loop only answers a shortcode that is not yet taken. -/
theorem autoGenLoop_ok_fresh (m : UrlModel) (gen : Nat → String) :
    ∀ fuel attempts, 10 - attempts = fuel →
      ∀ code, autoGenLoop m gen attempts = Except.ok code →
        UrlModel.exists m code = false := by
  intro fuel
  induction fuel with
  | zero =>
    intro attempts hf code h
    rw [autoGenLoop_eq, if_pos (by omega)] at h
    cases h
  | succ n ih =>
    intro attempts hf code h
    rw [autoGenLoop_eq] at h
    by_cases h10 : attempts + 1 > 10
    · rw [if_pos h10] at h
      cases h
    · rw [if_neg h10] at h
      by_cases hex : UrlModel.exists m (gen attempts) = true
      · rw [if_pos hex] at h
        exact ih (attempts + 1) (by omega) code h
      · rw [if_neg hex] at h
        injection h with h
        subst h
        simpa using hex

/-- When every candidate of the first ten attempts is already taken, the
loop answers the 500 signal. -/
theorem autoGenLoop_exhaust (m : UrlModel) (gen : Nat → String)
    (hall : ∀ i, i < 10 → UrlModel.exists m (gen i) = true) :
    ∀ fuel attempts, 10 - attempts = fuel →
      autoGenLoop m gen attempts = Except.error () := by
  intro fuel
  induction fuel with
  | zero =>
    intro attempts hf
    rw [autoGenLoop_eq, if_pos (by omega)]
  | succ n ih =>
    intro attempts hf
    rw [autoGenLoop_eq]
    by_cases h10 : attempts + 1 > 10
    · rw [if_pos h10]
    · rw [if_neg h10, if_pos (hall attempts (by omega)),
        ih (attempts + 1) (by omega)]

/-- Every character of the generation alphabet is alphanumeric. -/
theorem alphabet_all_alphanum : alphabet.all (fun c => c.isAlphanum) = true := by
  decide

/-- Every replacement character drawn from the alphabet is alphanumeric. -/
theorem alphabet_getD_alphanum (i : Nat) :
    (alphabet.getD (i % alphabet.length) '0').isAlphanum = true := by
  have hpos : 0 < alphabet.length := by decide
  have hlt : i % alphabet.length < alphabet.length := Nat.mod_lt _ hpos
  rw [List.getD_eq_getElem alphabet '0' hlt]
  exact (List.all_eq_true.1 alphabet_all_alphanum) _ (List.getElem_mem hlt)

/-- C7: when no shortcode is supplied, (a) each generated candidate is a
6-character alphanumeric string, (b) the retry loop only ever completes the
create with a shortcode for which `exists` was false at generation time, and
(c) if the first ten candidates all collide, the create answers the
server-error (500) signal and inserts nothing: the registry is returned
unchanged. -/
theorem C7_autoGeneration (m : UrlModel) (gen : Nat → String) (url : String)
    (now validityMinutes : Int) :
    (∀ raw rand, raw.length = 6 →
      (generateShortcode raw rand).length = 6 ∧
      (generateShortcode raw rand).toList.all (fun c => c.isAlphanum) = true) ∧
    (∀ code, autoGenLoop m gen 0 = Except.ok code →
      UrlModel.exists m code = false) ∧
    ((∀ i, i < 10 → UrlModel.exists m (gen i) = true) →
      createAutoHandler m gen url now validityMinutes =
        (m, CreateAutoResult.serverError)) := by
  refine ⟨?_, ?_, ?_⟩
  · intro raw rand hlen
    constructor
    · show (raw.enum.map _).length = 6
      rw [List.length_map, List.enum_length, hlen]
    · rw [List.all_eq_true]
      intro c hc
      obtain ⟨p, _, hp2⟩ := List.mem_map.1 hc
      subst hp2
      by_cases ha : p.2.isAlphanum
      · simp [ha]
      · simpa [ha] using alphabet_getD_alphanum (rand p.1)
  · intro code h
    exact autoGenLoop_ok_fresh m gen 10 0 rfl code h
  · intro hall
    have herr : autoGenLoop m gen 0 = Except.error () :=
      autoGenLoop_exhaust m gen hall 10 0 rfl
    simp [createAutoHandler, herr]

/-- C7 witness: the theorem applied (a) to a raw candidate with a
non-alphanumeric character, (b) to an empty registry where generation
succeeds first try, and (c) to a registry where the single candidate code is
pre-populated so all ten attempts collide. -/
theorem C7_autoGeneration_witness :
    ((generateShortcode ['a', '_', 'c', '1', '-', '3'] (fun i => i)).length = 6 ∧
     (generateShortcode ['a', '_', 'c', '1', '-', '3'] (fun i => i)).toList.all
       (fun c => c.isAlphanum) = true) ∧
    UrlModel.exists UrlModel.empty "aaa111" = false ∧
    createAutoHandler
        (createShortUrl UrlModel.empty 0 "aaa111" "https://example.com" 30).1
        (fun _ => "aaa111") "https://example.com" 0 30 =
      ((createShortUrl UrlModel.empty 0 "aaa111" "https://example.com" 30).1,
       CreateAutoResult.serverError) := by
  obtain ⟨h1, _, _⟩ :=
    C7_autoGeneration UrlModel.empty (fun _ => "aaa111") "https://example.com"
      0 30
  obtain ⟨_, h2, _⟩ :=
    C7_autoGeneration UrlModel.empty (fun _ => "aaa111") "https://example.com"
      0 30
  obtain ⟨_, _, h3⟩ :=
    C7_autoGeneration
      (createShortUrl UrlModel.empty 0 "aaa111" "https://example.com" 30).1
      (fun _ => "aaa111") "https://example.com" 0 30
  refine ⟨h1 ['a', '_', 'c', '1', '-', '3'] (fun i => i) rfl, ?_, ?_⟩
  · refine h2 "aaa111" ?_
    rw [autoGenLoop_eq]
    norm_num [UrlModel.exists, mapHas, mapGet, UrlModel.empty]
  · exact h3 (fun i _ => by decide)

/-- One registry operation preserves the per-entry analytics count
consistency. -/
theorem totalClicks_step {m m' : UrlModel} (hs : Step m m')
    (ih : ∀ p ∈ m.analytics, p.2.totalClicks = p.2.clicks.length) :
    ∀ p ∈ m'.analytics, p.2.totalClicks = p.2.clicks.length := by
  cases hs with
  | create sc url e cAt =>
    intro p hp
    simp only [UrlModel.create] at hp
    rcases mem_mapSet hp with h' | h'
    · subst h'
      rfl
    · exact ih p h'
  | click now sc cd =>
    intro p hp
    cases hm : mapGet m.analytics sc with
    | none =>
      rw [UrlModel.recordClick, hm] at hp
      exact ih p hp
    | some a =>
      rw [UrlModel.recordClick, hm] at hp
      rcases mem_mapSet hp with h' | h'
      · subst h'
        have ha : a.totalClicks = a.clicks.length :=
          ih (sc, a) (mem_of_mapGet hm)
        show a.totalClicks + 1 = (a.clicks ++ [mkClick now cd]).length
        rw [List.length_append, ha]
        rfl
      · exact ih p h'
  | cleanup now =>
    intro p hp
    exact ih p (cleanupLoop_analytics_mem now m.urls m 0 hp)

/-- In every reachable registry state every analytics entry's `totalClicks`
equals the length of its click list. -/
theorem reachable_totalClicks {m : UrlModel} (h : Reachable m) :
    ∀ p ∈ m.analytics, p.2.totalClicks = p.2.clicks.length := by
  induction h with
  | empty =>
    intro p hp
    cases hp
  | step hr hs ih => exact totalClicks_step hs ih

/-- C6: in every registry state reachable by any sequence of `create`,
`recordClick` and `cleanupExpired` operations from the empty registry, every
stored analytics entry satisfies `totalClicks = clicks.length`. -/
theorem C6_totalClicks_invariant (m : UrlModel) (h : Reachable m)
    (sc : String) (a : AnalyticsEntry)
    (ha : mapGet m.analytics sc = some a) :
    a.totalClicks = a.clicks.length :=
  reachable_totalClicks h (sc, a) (mem_of_mapGet ha)

/-- C6 witness: the invariant applied to the concrete state reached by a
create followed by one recorded click. -/
theorem C6_totalClicks_invariant_witness :
    mapGet (UrlModel.recordClick
        (UrlModel.create UrlModel.empty "abc123" "https://example.com"
          60000 0).1
        5 "abc123" ⟨"1.2.3.4", "TestAgent", none, none⟩).1.analytics
        "abc123" =
      some ⟨1, [mkClick 5 ⟨"1.2.3.4", "TestAgent", none, none⟩]⟩ ∧
    (⟨1, [mkClick 5 ⟨"1.2.3.4", "TestAgent", none, none⟩]⟩ :
        AnalyticsEntry).totalClicks =
      (⟨1, [mkClick 5 ⟨"1.2.3.4", "TestAgent", none, none⟩]⟩ :
        AnalyticsEntry).clicks.length :=
  ⟨by decide,
   C6_totalClicks_invariant _
     (Reachable.step
       (Reachable.step Reachable.empty
         (Step.create "abc123" "https://example.com" 60000 0))
       (Step.click 5 "abc123" ⟨"1.2.3.4", "TestAgent", none, none⟩))
     "abc123" ⟨1, [mkClick 5 ⟨"1.2.3.4", "TestAgent", none, none⟩]⟩
     (by decide)⟩

/-- One registry operation preserves the key alignment of the two maps. -/
theorem keysAligned_step {m m' : UrlModel} (hs : Step m m')
    (ih : ∀ sc, (mapGet m.urls sc).isSome = (mapGet m.analytics sc).isSome) :
    ∀ sc, (mapGet m'.urls sc).isSome = (mapGet m'.analytics sc).isSome := by
  cases hs with
  | create sc0 url e cAt =>
    intro sc
    by_cases hsc : sc = sc0
    · rw [hsc]
      simp [UrlModel.create, mapGet_set_self]
    · simp only [UrlModel.create]
      rw [mapGet_set_ne _ _ hsc, mapGet_set_ne _ _ hsc]
      exact ih sc
  | click now sc0 cd =>
    intro sc
    cases hm : mapGet m.analytics sc0 with
    | none =>
      rw [UrlModel.recordClick, hm]
      exact ih sc
    | some a =>
      rw [UrlModel.recordClick, hm]
      by_cases hsc : sc = sc0
      · rw [hsc]
        simp only [mapGet_set_self]
        rw [ih sc0, hm]
        rfl
      · simp only
        rw [mapGet_set_ne _ _ hsc]
        exact ih sc
  | cleanup now =>
    intro sc
    simp only [UrlModel.cleanupExpired]
    rw [cleanupLoop_urls_get, cleanupLoop_analytics_get]
    by_cases hin : sc ∈ expiredKeys now m.urls
    · rw [if_pos hin, if_pos hin]
      rfl
    · rw [if_neg hin, if_neg hin]
      exact ih sc

/-- In every reachable state the two maps hold exactly the same keys. -/
theorem reachable_keysAligned {m : UrlModel} (h : Reachable m) :
    ∀ sc, (mapGet m.urls sc).isSome = (mapGet m.analytics sc).isSome := by
  induction h with
  | empty =>
    intro sc
    rfl
  | step hr hs ih => exact keysAligned_step hs ih

/-- C9: in every reachable registry state the `urls` map and the `analytics`
map hold exactly the same shortcode keys; consequently `recordClick` cannot
hit its analytics-missing failure branch for any shortcode present in the
`urls` map — it always succeeds there. -/
theorem C9_keysAligned (m : UrlModel) (h : Reachable m) :
    (∀ sc, (mapGet m.urls sc).isSome = (mapGet m.analytics sc).isSome) ∧
    (∀ now sc cd u, mapGet m.urls sc = some u →
      (UrlModel.recordClick m now sc cd).2 = true) := by
  refine ⟨reachable_keysAligned h, ?_⟩
  intro now sc cd u hu
  have h1 := reachable_keysAligned h sc
  rw [hu] at h1
  cases hm : mapGet m.analytics sc with
  | none =>
    rw [hm] at h1
    cases h1
  | some a => simp [UrlModel.recordClick, hm]

/-- C9 witness: the invariant applied to the concrete state reached by one
create: keys aligned at the created shortcode and `recordClick` succeeds
there. -/
theorem C9_keysAligned_witness :
    ((mapGet (UrlModel.create UrlModel.empty "abc123" "https://example.com"
        60000 0).1.urls "abc123").isSome =
      (mapGet (UrlModel.create UrlModel.empty "abc123" "https://example.com"
        60000 0).1.analytics "abc123").isSome) ∧
    (UrlModel.recordClick
      (UrlModel.create UrlModel.empty "abc123" "https://example.com"
        60000 0).1
      99 "abc123" ⟨"1.2.3.4", "TestAgent", none, none⟩).2 = true := by
  obtain ⟨h1, h2⟩ := C9_keysAligned
    (UrlModel.create UrlModel.empty "abc123" "https://example.com" 60000 0).1
    (Reachable.step Reachable.empty
      (Step.create "abc123" "https://example.com" 60000 0))
  exact ⟨h1 "abc123",
    h2 99 "abc123" ⟨"1.2.3.4", "TestAgent", none, none⟩
      ⟨"abc123", "https://example.com", 0, 60000, true⟩ (by decide)⟩

end UrlShortener
